import Mathlib

/-!
Formal model of the PC-build reconciliation server (`src/index.js`).

The JavaScript source is a single Express route plus a small resolution
pipeline.  We embed the pipeline shallowly:

* pure helpers (`findBestMatch`, the acceptability predicate, the merge of
  adjusted products) become Lean functions translated line by line;
* the external world (marketplace HTTP responses, the generative-text
  provider, wall-clock time) is passed in as explicit data: a network
  outcome per fetch, a parse outcome per provider call, a `now` timestamp;
* JavaScript numbers are modelled as rationals (`ℚ`), exceptions as
  explicit constructors, and the in-memory `NodeCache` as an association
  list carrying an absolute expiry timestamp.
-/

namespace PCBuild

/-- A resolved marketplace listing, as projected from a result card in
`fetchProduct` (src/index.js lines 73-80). -/
structure Listing where
  name : String
  price : ℚ
  url : String
  image : String
  rating : ℚ
  reviewCount : ℚ
deriving DecidableEq

/-- Outcome of one `axios.get` attempt inside `fetchWithRetry`
(src/index.js lines 29-45): a successful response, a throttling error
(HTTP status 429), or any other error. -/
inductive Attempt (α : Type) where
  | success (r : α)
  | rateLimited
  | otherError
deriving DecidableEq

/-- Result of `fetchWithRetry`: a response, an immediately propagated
non-429 error, or the terminal `Max retries reached` error. -/
inductive FetchResult (α : Type) where
  | ok (r : α)
  | errOther
  | errMaxRetries
deriving DecidableEq

/-- The retry loop of `fetchWithRetry` (src/index.js lines 30-43), starting
at attempt index `i`.  The second component of the result accumulates, in
order, the backoff delays `baseDelay * 2 ^ attempt` that were awaited
(src/index.js lines 36-38). -/
def fetchWithRetryAux {α : Type} (attempt : Nat → Attempt α) (maxRetries baseDelay i : Nat)
    (delays : List Nat) : FetchResult α × List Nat :=
  if i < maxRetries then
    match attempt i with
    | Attempt.success r => (FetchResult.ok r, delays)
    | Attempt.rateLimited =>
        fetchWithRetryAux attempt maxRetries baseDelay (i + 1) (delays ++ [baseDelay * 2 ^ i])
    | Attempt.otherError => (FetchResult.errOther, delays)
  else (FetchResult.errMaxRetries, delays)
termination_by maxRetries - i

/-- `fetchWithRetry(url, headers, maxRetries, baseDelay)` (src/index.js
lines 29-45), with the sequence of per-attempt outcomes given explicitly.
The call sites use the defaults `maxRetries = 5`, `baseDelay = 5000`. -/
def fetchWithRetry {α : Type} (attempt : Nat → Attempt α) (maxRetries baseDelay : Nat) :
    FetchResult α × List Nat :=
  fetchWithRetryAux attempt maxRetries baseDelay 0 []

/-- Cache TTL: `new NodeCache({ stdTTL: 3600 })` (src/index.js line 27),
one hour, expressed in milliseconds as NodeCache stores it internally. -/
def ttlMs : Nat := 3600000

/-- One NodeCache entry: the stored listing sequence together with its
absolute expiry timestamp (insertion time + TTL). -/
structure CacheEntry where
  val : List Listing
  expiry : Nat
deriving DecidableEq

/-- The product cache, modelled as an association list keyed by the cache
key string; lookups take the first (most recent) binding. -/
abbrev Cache := List (String × CacheEntry)

/-- First-match association lookup, modelling JavaScript object/key-value
store access. -/
def lookupKey {α : Type} : List (String × α) → String → Option α
  | [], _ => none
  | kv :: rest, k => if kv.1 = k then some kv.2 else lookupKey rest k

/-- `cache.get(key)` at time `now`: NodeCache returns the stored value
while `expiry < now` is false, and behaves as absent afterwards (lazy
eviction does not change the observable result). -/
def cacheGet (c : Cache) (now : Nat) (key : String) : Option (List Listing) :=
  match lookupKey c key with
  | some e => if e.expiry < now then none else some e.val
  | none => none

/-- `cache.set(key, products)` at time `now`: stores the sequence with
expiry `now + ttlMs`. -/
def cacheSet (c : Cache) (now : Nat) (key : String) (v : List Listing) : Cache :=
  (key, ⟨v, now + ttlMs⟩) :: c

/-- One result card of the marketplace JSON payload, with exactly the
fields projected by `fetchProduct` (src/index.js lines 73-80).
`previewImagesLarge` lists the `large` field of each preview image. -/
structure Card where
  title : String
  unitPrice : ℚ
  shopLink : String
  previewImagesLarge : List String
  rating : ℚ
  reviewsQuantity : ℚ
deriving DecidableEq

/-- The projection of a card into a `Listing` (src/index.js lines 73-80);
`previewImages[0]?.large || ''` becomes the head of the image list with
default `""`. -/
def cardToListing (card : Card) : Listing :=
  { name := card.title
    price := card.unitPrice
    url := card.shopLink
    image := card.previewImagesLarge.head?.getD ""
    rating := card.rating
    reviewCount := card.reviewsQuantity }

/-- Outcome of the network interaction performed on a cache miss:
a JSON response carrying result cards, a non-JSON response, or a raised
error (`fetchWithRetry` propagating a non-429 failure or throwing
`Max retries reached`). -/
inductive NetOutcome where
  | jsonResponse (cards : List Card)
  | nonJson
  | fetchError
deriving DecidableEq

/-- `fetchProduct(searchTerm)` (src/index.js lines 47-91) at time `now`
against cache `c`, with the network outcome given explicitly.  Returns the
listing sequence together with the cache state after the call.  A cache
hit returns the cached sequence unchanged; a JSON response is projected
and written to the cache; a non-JSON response or a caught error yields the
empty sequence and leaves the cache untouched. -/
def fetchProduct (c : Cache) (now : Nat) (searchTerm : String) (net : NetOutcome) :
    List Listing × Cache :=
  let cacheKey := "product:" ++ searchTerm
  match cacheGet c now cacheKey with
  | some cached => (cached, c)
  | none =>
    match net with
    | NetOutcome.jsonResponse cards =>
        let products := cards.map cardToListing
        (products, cacheSet c now cacheKey products)
    | NetOutcome.nonJson => ([], c)
    | NetOutcome.fetchError => ([], c)

/-- The scanning loop of string-similarity's `findBestMatch`: walk the
remaining ratings with the index of the next element and the best
`(index, rating)` pair seen so far, updating only on a strictly greater
rating. -/
def scanBest : List ℚ → Nat → Nat × ℚ → Nat × ℚ
  | [], _, best => best
  | r :: rest, i, best => scanBest rest (i + 1) (if best.2 < r then (i, r) else best)

/-- Index of the first maximal rating, as computed by string-similarity's
`findBestMatch` (`bestMatchIndex`). -/
def firstMaxIdx : List ℚ → Nat
  | [] => 0
  | r :: rest => (scanBest rest 1 (0, r)).1

/-- `stringSimilarity.findBestMatch(mainString, targets).bestMatch.target`:
the target string whose similarity rating against `mainString` is maximal
(first maximum wins).  The similarity measure of the library is kept
abstract as `sim`; every theorem below holds for an arbitrary measure. -/
def simBestTarget (sim : String → String → ℚ) (mainString : String) (targets : List String) :
    String :=
  targets.getD (firstMaxIdx (targets.map (fun t => sim mainString t))) ""

/-- `findBestMatch(searchTerm, products)` (src/index.js lines 93-101):
`null` on an empty sequence, otherwise the product at the first index of
the best-matching name (`products[...] || null` becomes `List.get?`). -/
def findBestMatch (sim : String → String → ℚ) (searchTerm : String) (products : List Listing) :
    Option Listing :=
  if products.length = 0 then none
  else
    products.get? ((products.map Listing.name).indexOf
      (simBestTarget sim searchTerm (products.map Listing.name)))

/-- A JSON value sitting under a key of a parsed provider response.
`str` is a JSON string; `nonStr` is any other JSON value, carrying its
string coercion (used when the code interpolates it into a search URL). -/
inductive JVal where
  | str (s : String)
  | nonStr (coerced : String)
deriving DecidableEq

/-- JavaScript template-literal coercion of a parsed JSON value. -/
def jvalRepr : JVal → String
  | JVal.str s => s
  | JVal.nonStr c => c

/-- One generative-text provider response: the raw message text and the
outcome of `JSON.parse` on it (`none` models a parse exception; a parsed
object is its ordered key/value list). -/
structure GenOutput where
  text : String
  parsed : Option (List (String × JVal))

/-- Outcome of resolving one component term — the body of the per-item
`try` (fetch the products, pick the best match): either a completed
`Option Listing`, or a raised exception. -/
inductive ResolveOutcome where
  | ok (p : Option Listing)
  | threw

/-- The per-item `try/catch` of the batches (src/index.js lines 168-177 and
234-243): an exception is caught and converted to `null`. -/
def resolveItem (resolve : String → ResolveOutcome) (term : String) : Option Listing :=
  match resolve term with
  | ResolveOutcome.ok p => p
  | ResolveOutcome.threw => none

/-- Observable outcome of the route: `res.send({response, products})` or
`res.status(500).json(...)`. -/
inductive ApiResponse where
  | success (response : String) (products : List (String × Listing))
  | internalError
deriving DecidableEq

/-- `requiredComponents` (src/index.js line 153). -/
def requiredComponents : List String :=
  ["CPU", "GPU", "Motherboard", "RAM", "PSU", "CPU Cooler", "FAN", "PC case"]

/-- The validation `requiredComponents.every(comp =>
componentKeys.includes(comp))` (src/index.js line 156). -/
def validSpec (components : List (String × JVal)) : Bool :=
  requiredComponents.all (fun comp => (components.map Prod.fst).contains comp)

/-- JavaScript object property assignment `m[k] = v`: overwrite the
existing binding in place, otherwise append a new one.  (A JavaScript
object holds each key at most once, so overwriting the first occurrence is
exact.) -/
def setKey {α : Type} : List (String × α) → String → α → List (String × α)
  | [], k, v => [(k, v)]
  | kv :: rest, k, v => if kv.1 = k then (k, v) :: rest else kv :: setKey rest k v

/-- One step of accumulating resolved products into an object: assign the
listing under its key when present, skip absent results (the `if (product)
acc[key] = product` / `if (product) productResponse[key] = product`
bodies, src/index.js lines 189-191 and 251-253). -/
def mergeStep (acc : List (String × Listing)) (kp : String × Option Listing) :
    List (String × Listing) :=
  match kp.2 with
  | some p => setKey acc kp.1 p
  | none => acc

/-- The initial resolution batch (src/index.js lines 165-179): one entry
per required component key, resolving the component name found in the
parsed spec.  `resolve` abstracts `findBestMatch(c, await fetchProduct(c))`
for the environment of this request. -/
def initialBatch (resolve : String → ResolveOutcome) (components : List (String × JVal)) :
    List (String × Option Listing) :=
  requiredComponents.map (fun key =>
    (key, resolveItem resolve (jvalRepr ((lookupKey components key).getD (JVal.nonStr "undefined")))))

/-- `productResponse` (src/index.js lines 181-193): keep the non-null
results and accumulate them into an object. -/
def productsOf (fetched : List (String × Option Listing)) : List (String × Listing) :=
  (fetched.filter (fun kp => kp.2.isSome)).foldl mergeStep []

/-- `missingComponents` (src/index.js lines 184-186): the keys whose
resolution yielded `null`. -/
def missingOf (fetched : List (String × Option Listing)) : List String :=
  (fetched.filter (fun kp => kp.2.isNone)).map Prod.fst

/-- `totalPrice` (src/index.js line 196): sum of the prices of the
accumulated products. -/
def totalPriceOf (products : List (String × Listing)) : ℚ :=
  (products.map (fun kv => kv.2.price)).sum

/-- The acceptability test (src/index.js line 199):
`missingComponents.length === 0 && Math.abs(totalPrice - budget) / budget <= 0.1`. -/
def bundleAcceptable (missing : List String) (totalPrice budget : ℚ) : Bool :=
  missing.isEmpty && decide (|totalPrice - budget| / budget ≤ 1 / 10)

/-- The adjusted resolution batch (src/index.js lines 230-248): one entry
per key of the adjusted mapping; string values are resolved through the
per-item `try/catch`, non-string values yield `null`. -/
def adjustedBatch (resolve : String → ResolveOutcome) (ac : List (String × JVal)) :
    List (String × Option Listing) :=
  ac.map (fun kc =>
    (kc.1, match kc.2 with
      | JVal.str s => resolveItem resolve s
      | JVal.nonStr _ => none))

/-- The merge of the adjusted results into the original product object
(src/index.js lines 250-254). -/
def mergeProducts (base : List (String × Listing)) (adj : List (String × Option Listing)) :
    List (String × Listing) :=
  adj.foldl mergeStep base

/-- The `/api/generate` route handler (src/index.js lines 103-270), with
the two provider responses and the two resolution environments given as
inputs.  The second component counts the `openai.chat.completions.create`
invocations (call sites at src/index.js lines 138 and 219). -/
def processRequest (budget : ℚ) (initial adjusted : GenOutput)
    (resolve1 resolve2 : String → ResolveOutcome) : ApiResponse × Nat :=
  match initial.parsed with
  | none => (ApiResponse.internalError, 1)
  | some components =>
    if validSpec components then
      if bundleAcceptable (missingOf (initialBatch resolve1 components))
          (totalPriceOf (productsOf (initialBatch resolve1 components))) budget then
        (ApiResponse.success initial.text (productsOf (initialBatch resolve1 components)), 1)
      else
        match adjusted.parsed with
        | none => (ApiResponse.internalError, 2)
        | some adjustedComponents =>
          (ApiResponse.success adjusted.text
            (mergeProducts (productsOf (initialBatch resolve1 components))
              (adjustedBatch resolve2 adjustedComponents)), 2)
    else (ApiResponse.internalError, 1)

/-! ### Association-list lemmas -/

theorem lookupKey_setKey_self {α : Type} (m : List (String × α)) (k : String) (v : α) :
    lookupKey (setKey m k v) k = some v := by
  induction m with
  | nil => simp [setKey, lookupKey]
  | cons kv rest ih =>
      by_cases hk : kv.1 = k
      · simp [setKey, lookupKey, hk]
      · simp [setKey, lookupKey, hk, ih]

theorem lookupKey_setKey_ne {α : Type} (m : List (String × α)) (k k2 : String) (v : α)
    (h : k2 ≠ k) : lookupKey (setKey m k v) k2 = lookupKey m k2 := by
  have hne : ¬ k = k2 := Ne.symm h
  induction m with
  | nil => simp [setKey, lookupKey, hne]
  | cons kv rest ih =>
      by_cases hk : kv.1 = k
      · have hk2 : ¬ kv.1 = k2 := by
          intro he
          exact h (he.symm.trans hk)
        simp [setKey, lookupKey, hk, hk2, hne]
      · by_cases hk2 : kv.1 = k2
        · simp [setKey, lookupKey, hk, hk2, h]
        · simp [setKey, lookupKey, hk, hk2, ih]

theorem setKey_of_fresh {α : Type} (m : List (String × α)) (k : String) (v : α)
    (h : lookupKey m k = none) : setKey m k v = m ++ [(k, v)] := by
  induction m with
  | nil => simp [setKey]
  | cons kv rest ih =>
      by_cases hk : kv.1 = k
      · simp [lookupKey, hk] at h
      · simp [lookupKey, hk] at h
        simp [setKey, hk, ih h]

theorem lookupKey_append_of_none {α : Type} (a b : List (String × α)) (k : String)
    (h : lookupKey a k = none) : lookupKey (a ++ b) k = lookupKey b k := by
  induction a with
  | nil => simp
  | cons kv rest ih =>
      by_cases hk : kv.1 = k
      · simp [lookupKey, hk] at h
      · simp [lookupKey, hk] at h ⊢
        exact ih h

theorem lookupKey_eq_none_iff {α : Type} (m : List (String × α)) (k : String) :
    lookupKey m k = none ↔ k ∉ m.map Prod.fst := by
  induction m with
  | nil => simp [lookupKey]
  | cons kv rest ih =>
      by_cases hk : kv.1 = k
      · simp [lookupKey, hk]
      · have hk2 : ¬ k = kv.1 := fun he => hk he.symm
        simp [lookupKey, hk, ih, hk2]

/-! ### Merge lemmas -/

theorem lookupKey_mergeProducts_of_absent (base : List (String × Listing))
    (adj : List (String × Option Listing)) (k : String)
    (h : ∀ p, (k, p) ∈ adj → p = none) :
    lookupKey (mergeProducts base adj) k = lookupKey base k := by
  induction adj generalizing base with
  | nil => simp [mergeProducts]
  | cons kp rest ih =>
      match kp with
      | (k1, some p) =>
          have hk1 : k1 ≠ k := by
            intro he
            exact Option.noConfusion (h (some p) (by rw [he]; exact List.mem_cons_self _ _))
          have step : mergeProducts base ((k1, some p) :: rest)
              = mergeProducts (setKey base k1 p) rest := by
            simp [mergeProducts, mergeStep]
          rw [step, ih (setKey base k1 p) (fun q hq => h q (List.mem_cons_of_mem _ hq)),
            lookupKey_setKey_ne base k1 k p (Ne.symm hk1)]
      | (k1, none) =>
          have step : mergeProducts base ((k1, none) :: rest) = mergeProducts base rest := by
            simp [mergeProducts, mergeStep]
          rw [step, ih base (fun q hq => h q (List.mem_cons_of_mem _ hq))]

theorem lookupKey_mergeProducts_isSome (base : List (String × Listing))
    (adj : List (String × Option Listing)) (k : String) :
    (lookupKey (mergeProducts base adj) k).isSome
      ↔ (lookupKey base k).isSome ∨ ∃ p, (k, some p) ∈ adj := by
  induction adj generalizing base with
  | nil => simp [mergeProducts]
  | cons kp rest ih =>
      match kp with
      | (k1, some p) =>
          have step : mergeProducts base ((k1, some p) :: rest)
              = mergeProducts (setKey base k1 p) rest := by
            simp [mergeProducts, mergeStep]
          rw [step, ih]
          by_cases hk : k = k1
          · subst hk
            simp [lookupKey_setKey_self]
          · rw [lookupKey_setKey_ne base k1 k p hk]
            constructor
            · rintro (hs | ⟨q, hq⟩)
              · exact Or.inl hs
              · exact Or.inr ⟨q, List.mem_cons_of_mem _ hq⟩
            · rintro (hs | ⟨q, hq⟩)
              · exact Or.inl hs
              · rcases List.mem_cons.1 hq with heq | hmem
                · exact absurd (congrArg Prod.fst heq) hk
                · exact Or.inr ⟨q, hmem⟩
      | (k1, none) =>
          have step : mergeProducts base ((k1, none) :: rest) = mergeProducts base rest := by
            simp [mergeProducts, mergeStep]
          rw [step, ih]
          constructor
          · rintro (hs | ⟨q, hq⟩)
            · exact Or.inl hs
            · exact Or.inr ⟨q, List.mem_cons_of_mem _ hq⟩
          · rintro (hs | ⟨q, hq⟩)
            · exact Or.inl hs
            · rcases List.mem_cons.1 hq with heq | hmem
              · exact absurd heq (by simp)
              · exact Or.inr ⟨q, hmem⟩

theorem lookupKey_mergeProducts_last (base : List (String × Listing))
    (adj1 : List (String × Option Listing)) (k : String) (v : Listing) :
    lookupKey (mergeProducts base (adj1 ++ [(k, some v)])) k = some v := by
  have : mergeProducts base (adj1 ++ [(k, some v)])
      = setKey (mergeProducts base adj1) k v := by
    simp [mergeProducts, List.foldl_append, mergeStep]
  rw [this, lookupKey_setKey_self]

/-! ### Best-match scanning lemmas -/

theorem scanBest_snd_le (l : List ℚ) : ∀ (i : Nat) (best : Nat × ℚ),
    best.2 ≤ (scanBest l i best).2 := by
  induction l with
  | nil =>
      intro i best
      simp [scanBest]
  | cons r rest ih =>
      intro i best
      rw [scanBest]
      by_cases hb : best.2 < r
      · rw [if_pos hb]
        exact le_trans (le_of_lt hb) (ih (i + 1) (i, r))
      · rw [if_neg hb]
        exact ih (i + 1) best

theorem scanBest_snd_max (l : List ℚ) : ∀ (i : Nat) (best : Nat × ℚ) (x : ℚ),
    x ∈ l → x ≤ (scanBest l i best).2 := by
  induction l with
  | nil =>
      intro i best x hx
      simp at hx
  | cons r rest ih =>
      intro i best x hx
      rw [scanBest]
      rcases List.mem_cons.1 hx with he | hm
      · subst he
        by_cases hb : best.2 < x
        · rw [if_pos hb]
          exact scanBest_snd_le rest (i + 1) (i, x)
        · rw [if_neg hb]
          exact le_trans (le_of_not_lt hb) (scanBest_snd_le rest (i + 1) best)
      · by_cases hb : best.2 < r
        · rw [if_pos hb]
          exact ih _ _ _ hm
        · rw [if_neg hb]
          exact ih _ _ _ hm

theorem scanBest_attained (l : List ℚ) : ∀ (i : Nat) (best : Nat × ℚ),
    scanBest l i best = best ∨
      ∃ j, ∃ hj : j < l.length, scanBest l i best = (i + j, l.get ⟨j, hj⟩) := by
  induction l with
  | nil =>
      intro i best
      exact Or.inl rfl
  | cons r rest ih =>
      intro i best
      rw [scanBest]
      by_cases hb : best.2 < r
      · rw [if_pos hb]
        rcases ih (i + 1) (i, r) with he | ⟨j, hj, he⟩
        · refine Or.inr ⟨0, by simp, ?_⟩
          rw [he]
          simp
        · refine Or.inr ⟨j + 1, Nat.succ_lt_succ hj, ?_⟩
          rw [he, show i + 1 + j = i + (j + 1) from by omega]
          rfl
      · rw [if_neg hb]
        rcases ih (i + 1) best with he | ⟨j, hj, he⟩
        · exact Or.inl he
        · refine Or.inr ⟨j + 1, Nat.succ_lt_succ hj, ?_⟩
          rw [he, show i + 1 + j = i + (j + 1) from by omega]
          rfl

theorem firstMaxIdx_spec (l : List ℚ) (h : l ≠ []) :
    ∃ hlt : firstMaxIdx l < l.length, ∀ x ∈ l, x ≤ l.get ⟨firstMaxIdx l, hlt⟩ := by
  match l with
  | [] => exact absurd rfl h
  | r :: rest =>
      have hmax : ∀ x ∈ r :: rest, x ≤ (scanBest rest 1 (0, r)).2 := by
        intro x hx
        rcases List.mem_cons.1 hx with hxe | hxm
        · subst hxe
          exact scanBest_snd_le rest 1 (0, x)
        · exact scanBest_snd_max rest 1 (0, r) x hxm
      rcases scanBest_attained rest 1 (0, r) with he | ⟨j, hj, he⟩
      · have hidx : firstMaxIdx (r :: rest) = 0 := by
          rw [firstMaxIdx, he]
        refine ⟨by simp [hidx], ?_⟩
        intro x hx
        have : (r :: rest).get ⟨firstMaxIdx (r :: rest), by simp [hidx]⟩ = r := by
          simp [hidx]
        rw [this]
        have hval : (scanBest rest 1 (0, r)).2 = r := by rw [he]
        exact hval ▸ hmax x hx
      · have hidx : firstMaxIdx (r :: rest) = 1 + j := by
          rw [firstMaxIdx, he]
        have hlt : firstMaxIdx (r :: rest) < (r :: rest).length := by
          simp [hidx]
          omega
        refine ⟨hlt, ?_⟩
        intro x hx
        have hget : (r :: rest).get ⟨firstMaxIdx (r :: rest), hlt⟩ = rest.get ⟨j, hj⟩ := by
          have h1j : firstMaxIdx (r :: rest) = j + 1 := by omega
          rw [List.get_of_eq rfl]
          simp [h1j]
        rw [hget]
        have hval : (scanBest rest 1 (0, r)).2 = rest.get ⟨j, hj⟩ := by rw [he]
        exact hval ▸ hmax x hx

/-! ### Retry-loop lemmas -/

theorem fetchWithRetryAux_skip {α : Type} (attempt : Nat → Attempt α) (m d : Nat) :
    ∀ (k i : Nat) (delays : List Nat), i + k ≤ m →
      (∀ j, i ≤ j → j < i + k → attempt j = Attempt.rateLimited) →
      fetchWithRetryAux attempt m d i delays
        = fetchWithRetryAux attempt m d (i + k)
            (delays ++ (List.range k).map (fun j => d * 2 ^ (i + j))) := by
  intro k
  induction k with
  | zero =>
      intro i delays _ _
      simp
  | succ n ih =>
      intro i delays hm hrl
      have hi : i < m := by omega
      have hai : attempt i = Attempt.rateLimited := hrl i (le_refl i) (by omega)
      rw [fetchWithRetryAux, if_pos hi, hai,
        ih (i + 1) (delays ++ [d * 2 ^ i]) (by omega)
          (fun j hj1 hj2 => hrl j (by omega) (by omega))]
      have hfun : (fun j => d * 2 ^ (i + 1 + j)) = (fun j => d * 2 ^ (i + (j + 1))) := by
        funext j
        rw [show i + 1 + j = i + (j + 1) from by omega]
      have hl : (delays ++ [d * 2 ^ i]) ++ (List.range n).map (fun j => d * 2 ^ (i + 1 + j))
          = delays ++ (List.range (n + 1)).map (fun j => d * 2 ^ (i + j)) := by
        rw [List.append_assoc]
        congr 1
        rw [List.range_succ_eq_map, List.map_cons, List.map_map, hfun]
        rfl
      rw [hl, show i + 1 + n = i + (n + 1) from by omega]

/-! ### Accumulation lemmas for the product object -/

theorem foldl_mergeStep_eq (l : List (String × Option Listing)) :
    ∀ acc : List (String × Listing),
      (∀ kp ∈ l, lookupKey acc kp.1 = none) →
      (l.map Prod.fst).Nodup →
      l.foldl mergeStep acc = acc ++ l.filterMap (fun kp => kp.2.map (fun p => (kp.1, p))) := by
  induction l with
  | nil =>
      intro acc _ _
      simp
  | cons kp rest ih =>
      intro acc hfresh hnd
      match kp with
      | (k1, none) =>
          have hstep : mergeStep acc (k1, none) = acc := rfl
          simp only [List.foldl_cons, hstep]
          rw [ih acc (fun q hq => hfresh q (List.mem_cons_of_mem _ hq)) (by
            simpa using hnd.of_cons)]
          simp
      | (k1, some p) =>
          have hfr : lookupKey acc k1 = none := hfresh (k1, some p) (List.mem_cons_self _ _)
          have hstep : mergeStep acc (k1, some p) = acc ++ [(k1, p)] := by
            simp [mergeStep, setKey_of_fresh _ _ _ hfr]
          simp only [List.foldl_cons, hstep]
          have hk1 : k1 ∉ rest.map Prod.fst := by
            have := hnd
            simp only [List.map_cons, List.nodup_cons] at this
            exact this.1
          rw [ih (acc ++ [(k1, p)]) ?_ (by
            simpa using hnd.of_cons)]
          · simp
          · intro q hq
            have h1 : lookupKey acc q.1 = none := hfresh q (List.mem_cons_of_mem _ hq)
            rw [lookupKey_append_of_none _ _ _ h1]
            have hne : ¬ k1 = q.1 := by
              intro he
              exact hk1 (he ▸ List.mem_map_of_mem Prod.fst hq)
            simp [lookupKey, hne]

theorem filter_isSome_filterMap (l : List (String × Option Listing)) :
    (l.filter (fun kp => kp.2.isSome)).filterMap (fun kp => kp.2.map (fun p => (kp.1, p)))
      = l.filterMap (fun kp => kp.2.map (fun p => (kp.1, p))) := by
  induction l with
  | nil => simp
  | cons kp rest ih =>
      match kp with
      | (k, some p) => simp [List.filter_cons, ih]
      | (k, none) => simp [List.filter_cons, ih]

theorem productsOf_eq (fetched : List (String × Option Listing))
    (h : (fetched.map Prod.fst).Nodup) :
    productsOf fetched
      = fetched.filterMap (fun kp => kp.2.map (fun p => (kp.1, p))) := by
  have hsub : List.Sublist ((fetched.filter (fun kp => kp.2.isSome)).map Prod.fst)
      (fetched.map Prod.fst) :=
    (List.filter_sublist fetched).map Prod.fst
  have hnd : ((fetched.filter (fun kp => kp.2.isSome)).map Prod.fst).Nodup := h.sublist hsub
  rw [productsOf, foldl_mergeStep_eq _ [] (by intro kp _; rfl) hnd, List.nil_append,
    filter_isSome_filterMap]

theorem sum_prices_filterMap (l : List (String × Option Listing)) :
    ((l.filterMap (fun kp => kp.2.map (fun p => (kp.1, p)))).map (fun kv => kv.2.price)).sum
      = ((l.filterMap Prod.snd).map Listing.price).sum := by
  induction l with
  | nil => simp
  | cons kp rest ih =>
      match kp with
      | (k, some p) => simp [ih, Listing.price]
      | (k, none) => simp [ih]

/-! ### Route-handler branch lemmas -/

theorem processRequest_parseFail (budget : ℚ) (initial adjusted : GenOutput)
    (r1 r2 : String → ResolveOutcome) (h : initial.parsed = none) :
    processRequest budget initial adjusted r1 r2 = (ApiResponse.internalError, 1) := by
  simp [processRequest, h]

theorem processRequest_invalidSpec (budget : ℚ) (initial adjusted : GenOutput)
    (r1 r2 : String → ResolveOutcome) (comps : List (String × JVal))
    (h1 : initial.parsed = some comps) (h2 : validSpec comps = false) :
    processRequest budget initial adjusted r1 r2 = (ApiResponse.internalError, 1) := by
  simp [processRequest, h1, h2]

theorem processRequest_acceptBranch (budget : ℚ) (initial adjusted : GenOutput)
    (r1 r2 : String → ResolveOutcome) (comps : List (String × JVal))
    (h1 : initial.parsed = some comps) (h2 : validSpec comps = true)
    (h3 : bundleAcceptable (missingOf (initialBatch r1 comps))
      (totalPriceOf (productsOf (initialBatch r1 comps))) budget = true) :
    processRequest budget initial adjusted r1 r2
      = (ApiResponse.success initial.text (productsOf (initialBatch r1 comps)), 1) := by
  simp [processRequest, h1, h2, h3]

theorem processRequest_adjustedParseFail (budget : ℚ) (initial adjusted : GenOutput)
    (r1 r2 : String → ResolveOutcome) (comps : List (String × JVal))
    (h1 : initial.parsed = some comps) (h2 : validSpec comps = true)
    (h3 : bundleAcceptable (missingOf (initialBatch r1 comps))
      (totalPriceOf (productsOf (initialBatch r1 comps))) budget = false)
    (h4 : adjusted.parsed = none) :
    processRequest budget initial adjusted r1 r2 = (ApiResponse.internalError, 2) := by
  simp [processRequest, h1, h2, h3, h4]

theorem processRequest_adjustedBranch (budget : ℚ) (initial adjusted : GenOutput)
    (r1 r2 : String → ResolveOutcome) (comps ac : List (String × JVal))
    (h1 : initial.parsed = some comps) (h2 : validSpec comps = true)
    (h3 : bundleAcceptable (missingOf (initialBatch r1 comps))
      (totalPriceOf (productsOf (initialBatch r1 comps))) budget = false)
    (h4 : adjusted.parsed = some ac) :
    processRequest budget initial adjusted r1 r2
      = (ApiResponse.success adjusted.text
          (mergeProducts (productsOf (initialBatch r1 comps)) (adjustedBatch r2 ac)), 2) := by
  simp [processRequest, h1, h2, h3, h4]

theorem simBestTarget_spec (sim : String → String → ℚ) (term : String) (names : List String)
    (h : names ≠ []) :
    simBestTarget sim term names ∈ names
      ∧ ∀ nm ∈ names, sim term nm ≤ sim term (simBestTarget sim term names) := by
  obtain ⟨hlt, hmax⟩ := firstMaxIdx_spec (names.map (fun t => sim term t)) (by simpa using h)
  have hltn : firstMaxIdx (names.map (fun t => sim term t)) < names.length := by
    simpa using hlt
  have hget : simBestTarget sim term names
      = names.get ⟨firstMaxIdx (names.map (fun t => sim term t)), hltn⟩ :=
    List.getD_eq_get names "" hltn
  constructor
  · rw [hget]
    exact List.get_mem names _ hltn
  · intro nm hnm
    have h1 : sim term nm ∈ names.map (fun t => sim term t) :=
      List.mem_map_of_mem _ hnm
    have h2 := hmax (sim term nm) h1
    have h3 : (names.map (fun t => sim term t)).get ⟨firstMaxIdx (names.map (fun t => sim term t)), hlt⟩
        = sim term (names.get ⟨firstMaxIdx (names.map (fun t => sim term t)), hltn⟩) :=
      List.get_map _
    rw [hget, ← h3]
    exact h2

/-! ### Claims -/

/-- C4: for every non-empty listing sequence and any query term,
best-match selection returns a listing that is an element of that exact
sequence — never a fabricated listing, never null — choosing a similarity
argmax with no additional similarity threshold; for the empty sequence it
returns null (absent).  The similarity measure is universally quantified,
so the property holds for the library's measure in particular. -/
theorem C4_best_match_membership (sim : String → String → ℚ) (term : String)
    (products : List Listing) :
    (products = [] → findBestMatch sim term products = none)
    ∧ (products ≠ [] → ∃ r, findBestMatch sim term products = some r ∧ r ∈ products
        ∧ ∀ p ∈ products, sim term p.name ≤ sim term r.name) := by
  constructor
  · intro h
    subst h
    simp [findBestMatch]
  · intro h
    have hlen : ¬ products.length = 0 := by
      simpa [List.length_eq_zero] using h
    have hne : products.map Listing.name ≠ [] := by
      simpa [List.map_eq_nil] using h
    obtain ⟨hmem, hble⟩ := simBestTarget_spec sim term (products.map Listing.name) hne
    have hj : (products.map Listing.name).indexOf
        (simBestTarget sim term (products.map Listing.name))
          < (products.map Listing.name).length :=
      List.indexOf_lt_length.2 hmem
    have hjp : (products.map Listing.name).indexOf
        (simBestTarget sim term (products.map Listing.name)) < products.length := by
      simpa using hj
    refine ⟨products.get ⟨_, hjp⟩, ?_, List.get_mem products _ hjp, ?_⟩
    · rw [findBestMatch, if_neg hlen]
      exact List.get?_eq_get hjp
    · intro p hp
      have e1 : (products.map Listing.name).get ⟨_, hj⟩
          = simBestTarget sim term (products.map Listing.name) := List.indexOf_get hj
      have e2 : (products.map Listing.name).get ⟨_, hj⟩
          = (products.get ⟨_, hjp⟩).name := List.get_map _
      rw [show (products.get ⟨_, hjp⟩).name
          = simBestTarget sim term (products.map Listing.name) from e2.symm.trans e1]
      exact hble p.name (List.mem_map_of_mem _ hp)

/-- Witness for C4: a singleton listing sequence yields its element as the
best match. -/
theorem C4_best_match_membership_witness :
    ∃ r, findBestMatch (fun _ _ => (0 : ℚ)) "q" [(⟨"a", 1, "u", "", 0, 0⟩ : Listing)] = some r
      ∧ r ∈ [(⟨"a", 1, "u", "", 0, 0⟩ : Listing)]
      ∧ ∀ p ∈ [(⟨"a", 1, "u", "", 0, 0⟩ : Listing)], (0 : ℚ) ≤ (0 : ℚ) :=
  (C4_best_match_membership (fun _ _ => (0 : ℚ)) "q" [⟨"a", 1, "u", "", 0, 0⟩]).2 (by simp)

/-- C6: the fetcher retries only on a throttling (429) response, waiting
baseDelay * 2 ^ attempt before each retry, for at most five attempts,
after which it raises the terminal max-retries error; any other error
propagates immediately without further retries (incurring only the delays
of the throttled attempts before it); and three consecutive throttling
responses followed by a success incur exactly the delays baseDelay,
2 * baseDelay, 4 * baseDelay before the success is returned. -/
theorem C6_retry_backoff {α : Type} (attempt : Nat → Attempt α) (d k : Nat) (r : α) :
    ((∀ j, j < 5 → attempt j = Attempt.rateLimited) →
      fetchWithRetry attempt 5 d
        = (FetchResult.errMaxRetries, (List.range 5).map (fun j => d * 2 ^ j)))
    ∧ (k < 5 → (∀ j, j < k → attempt j = Attempt.rateLimited) →
        attempt k = Attempt.otherError →
        fetchWithRetry attempt 5 d
          = (FetchResult.errOther, (List.range k).map (fun j => d * 2 ^ j)))
    ∧ (k < 5 → (∀ j, j < k → attempt j = Attempt.rateLimited) →
        attempt k = Attempt.success r →
        fetchWithRetry attempt 5 d
          = (FetchResult.ok r, (List.range k).map (fun j => d * 2 ^ j)))
    ∧ ((∀ j, j < 3 → attempt j = Attempt.rateLimited) →
        attempt 3 = Attempt.success r →
        fetchWithRetry attempt 5 d = (FetchResult.ok r, [d, 2 * d, 4 * d])) := by
  have hskip : ∀ k2, k2 ≤ 5 → (∀ j, j < k2 → attempt j = Attempt.rateLimited) →
      fetchWithRetry attempt 5 d
        = fetchWithRetryAux attempt 5 d k2 ((List.range k2).map (fun j => d * 2 ^ j)) := by
    intro k2 hk2 hrl
    rw [fetchWithRetry,
      fetchWithRetryAux_skip attempt 5 d k2 0 [] (by omega) (fun j h1 h2 => hrl j (by omega))]
    simp
  have hsucc : ∀ k2, k2 < 5 → (∀ j, j < k2 → attempt j = Attempt.rateLimited) →
      attempt k2 = Attempt.success r →
      fetchWithRetry attempt 5 d
        = (FetchResult.ok r, (List.range k2).map (fun j => d * 2 ^ j)) := by
    intro k2 hk2 hrl he
    rw [hskip k2 (by omega) hrl, fetchWithRetryAux, if_pos hk2, he]
  refine ⟨?_, ?_, hsucc k, ?_⟩
  · intro hrl
    rw [hskip 5 (le_refl 5) hrl, fetchWithRetryAux]
    simp
  · intro hk hrl he
    rw [hskip k (by omega) hrl, fetchWithRetryAux, if_pos hk, he]
  · intro hrl he
    rw [hsucc 3 (by omega) hrl he]
    have hlist : (List.range 3).map (fun j => d * 2 ^ j) = [d, 2 * d, 4 * d] := by
      show [d * 2 ^ 0, d * 2 ^ 1, d * 2 ^ 2] = [d, 2 * d, 4 * d]
      simp [pow_succ, Nat.mul_comm]
    rw [hlist]

/-- Witness for C6: three throttled attempts then a success, with
baseDelay 10, waits 10, 20, 40. -/
theorem C6_retry_backoff_witness :
    fetchWithRetry (fun i => if i < 3 then Attempt.rateLimited else Attempt.success 7) 5 10
      = (FetchResult.ok 7, [10, 2 * 10, 4 * 10]) :=
  (C6_retry_backoff (fun i => if i < 3 then Attempt.rateLimited else Attempt.success 7) 10 0 7).2.2.2
    (by
      intro j hj
      simp [hj])
    (by norm_num)

/-- C3: in the ADJUSTED phase, exactly the categories present in the
adjusted mapping are resolved, in order (a string value goes through the
per-item resolution, a non-string value resolves to absent), and the
resolved entries are merged into the original bundle overwriting any
previously-resolved entry for the same category; a category absent after
the initial batch is present in the final response if and only if the
adjusted mapping supplied it and its resolution succeeded. -/
theorem C3_adjusted_resolution (r2 : String → ResolveOutcome) (ac : List (String × JVal))
    (base : List (String × Listing)) (adj adj1 : List (String × Option Listing))
    (k : String) (v : Listing) :
    ((adjustedBatch r2 ac).map Prod.fst = ac.map Prod.fst)
    ∧ List.Forall₂ (fun (kc : String × JVal) (out : String × Option Listing) =>
        out = (kc.1, match kc.2 with
          | JVal.str s => resolveItem r2 s
          | JVal.nonStr _ => none)) ac (adjustedBatch r2 ac)
    ∧ (lookupKey (mergeProducts base (adj1 ++ [(k, some v)])) k = some v)
    ∧ (lookupKey base k = none →
        ((lookupKey (mergeProducts base adj) k).isSome ↔ ∃ p, (k, some p) ∈ adj)) := by
  refine ⟨?_, ?_, ?_, ?_⟩
  · simp [adjustedBatch, List.map_map, Function.comp_def]
  · rw [adjustedBatch, List.forall₂_map_right_iff]
    exact List.forall₂_same.2 (fun kc _ => rfl)
  · exact lookupKey_mergeProducts_last base adj1 k v
  · intro h
    rw [lookupKey_mergeProducts_isSome, h]
    simp

/-- Witness for C3 at concrete inputs: an adjusted mapping supplying a GPU
entry that resolves makes GPU present after the merge into a GPU-less
bundle. -/
theorem C3_adjusted_resolution_witness :
    (lookupKey (mergeProducts []
        [("GPU", some (⟨"g", 5, "u", "", 0, 0⟩ : Listing))]) "GPU").isSome
      ↔ ∃ p, ("GPU", some p) ∈ [("GPU", some (⟨"g", 5, "u", "", 0, 0⟩ : Listing))] :=
  (C3_adjusted_resolution (fun _ => ResolveOutcome.ok none) [] []
    [("GPU", some (⟨"g", 5, "u", "", 0, 0⟩ : Listing))] [] "GPU"
    ⟨"g", 5, "u", "", 0, 0⟩).2.2.2 rfl

/-- C5: an error during a single category's fetch or resolution is caught
locally and converted to an empty listing sequence / absent result for
that category only; it never propagates, and the batch always completes
with an entry for every required category. -/
theorem C5_fail_soft (resolve : String → ResolveOutcome) (comps : List (String × JVal))
    (c : Cache) (t : Nat) (term k : String) :
    (cacheGet c t ("product:" ++ term) = none →
      fetchProduct c t term NetOutcome.fetchError = ([], c))
    ∧ (resolve term = ResolveOutcome.threw → resolveItem resolve term = none)
    ∧ ((initialBatch resolve comps).map Prod.fst = requiredComponents)
    ∧ (k ∈ requiredComponents → ∃ p, (k, p) ∈ initialBatch resolve comps) := by
  refine ⟨?_, ?_, ?_, ?_⟩
  · intro h
    simp [fetchProduct, h]
  · intro h
    simp [resolveItem, h]
  · simp [initialBatch, List.map_map, Function.comp_def]
  · intro hk
    refine ⟨resolveItem resolve
      (jvalRepr ((lookupKey comps k).getD (JVal.nonStr "undefined"))), ?_⟩
    rw [initialBatch]
    exact List.mem_map_of_mem _ hk

/-- Witness for C5: a throwing resolver still yields a complete batch, and
a raised fetch error on an empty cache returns the empty sequence. -/
theorem C5_fail_soft_witness :
    fetchProduct [] 0 "x" NetOutcome.fetchError = ([], [])
      ∧ resolveItem (fun _ => ResolveOutcome.threw) "x" = none
      ∧ ∃ p, ("GPU", p) ∈ initialBatch (fun _ => ResolveOutcome.threw) [] :=
  ⟨(C5_fail_soft (fun _ => ResolveOutcome.threw) [] [] 0 "x" "GPU").1 rfl,
    (C5_fail_soft (fun _ => ResolveOutcome.threw) [] [] 0 "x" "GPU").2.1 rfl,
    (C5_fail_soft (fun _ => ResolveOutcome.threw) [] [] 0 "x" "GPU").2.2.2 (by decide)⟩

/-- C7: the derived missing-category list holds exactly the categories
whose resolution yielded absent, and the derived total price is the sum of
prices over resolved entries only (the category keys of a batch are
pairwise distinct: the initial batch iterates the fixed required-component
list and the adjusted batch the keys of a parsed JSON object). -/
theorem C7_missing_and_total (fetched : List (String × Option Listing)) (k : String) :
    (k ∈ missingOf fetched ↔ (k, (none : Option Listing)) ∈ fetched)
    ∧ ((fetched.map Prod.fst).Nodup →
        totalPriceOf (productsOf fetched)
          = ((fetched.filterMap Prod.snd).map Listing.price).sum) := by
  constructor
  · rw [missingOf]
    constructor
    · intro h
      rcases List.mem_map.1 h with ⟨kp, hkp, hfst⟩
      rcases List.mem_filter.1 hkp with ⟨hmem, hnone⟩
      have h2 : kp.2 = none := Option.isNone_iff_eq_none.1 hnone
      have : kp = (k, (none : Option Listing)) := by
        cases kp
        simp_all
      exact this ▸ hmem
    · intro h
      exact List.mem_map.2 ⟨(k, none), List.mem_filter.2 ⟨h, rfl⟩, rfl⟩
  · intro h
    rw [productsOf_eq fetched h, totalPriceOf, sum_prices_filterMap]

/-- Witness for C7: a batch with one resolved and one absent category. -/
theorem C7_missing_and_total_witness :
    ("GPU" ∈ missingOf [("CPU", some (⟨"c", 7, "u", "", 0, 0⟩ : Listing)), ("GPU", none)]
      ↔ ("GPU", (none : Option Listing))
          ∈ [("CPU", some (⟨"c", 7, "u", "", 0, 0⟩ : Listing)), ("GPU", none)])
    ∧ totalPriceOf (productsOf
        [("CPU", some (⟨"c", 7, "u", "", 0, 0⟩ : Listing)), ("GPU", none)])
      = (([("CPU", some (⟨"c", 7, "u", "", 0, 0⟩ : Listing)),
          ("GPU", none)].filterMap Prod.snd).map Listing.price).sum :=
  ⟨(C7_missing_and_total
      [("CPU", some (⟨"c", 7, "u", "", 0, 0⟩ : Listing)), ("GPU", none)] "GPU").1,
    (C7_missing_and_total
      [("CPU", some (⟨"c", 7, "u", "", 0, 0⟩ : Listing)), ("GPU", none)] "GPU").2 (by decide)⟩

/-- C9: a cache get returns the exact sequence previously set for the same
term until the fixed one-hour TTL measured from insertion elapses, and
behaves as absent after it elapses; a cache hit short-circuits resolution
with the cached sequence for every network outcome; and an entry is
written only from a successful JSON marketplace response — a non-JSON
response or a fetch error leaves the cache unchanged. -/
theorem C9_cache_ttl (c : Cache) (t0 t : Nat) (key term : String) (v l : List Listing)
    (net : NetOutcome) (cards : List Card) :
    (cacheGet (cacheSet c t0 key v) t key = if t ≤ t0 + ttlMs then some v else none)
    ∧ (cacheGet c t ("product:" ++ term) = some l → fetchProduct c t term net = (l, c))
    ∧ ((fetchProduct c t term NetOutcome.nonJson).2 = c)
    ∧ ((fetchProduct c t term NetOutcome.fetchError).2 = c)
    ∧ (cacheGet c t ("product:" ++ term) = none →
        fetchProduct c t term (NetOutcome.jsonResponse cards)
          = (cards.map cardToListing,
              cacheSet c t ("product:" ++ term) (cards.map cardToListing))) := by
  refine ⟨?_, ?_, ?_, ?_, ?_⟩
  · by_cases h : t ≤ t0 + ttlMs
    · simp [cacheGet, cacheSet, lookupKey, h, Nat.not_lt.2 h]
    · simp [cacheGet, cacheSet, lookupKey, h, Nat.not_le.1 h]
  · intro h
    simp [fetchProduct, h]
  · cases hc : cacheGet c t ("product:" ++ term) with
    | none => simp [fetchProduct, hc]
    | some l2 => simp [fetchProduct, hc]
  · cases hc : cacheGet c t ("product:" ++ term) with
    | none => simp [fetchProduct, hc]
    | some l2 => simp [fetchProduct, hc]
  · intro h
    simp [fetchProduct, h]

/-- Witness for C9: a hit on a freshly written entry short-circuits a
failing network fetch, returning the stored sequence. -/
theorem C9_cache_ttl_witness :
    fetchProduct (cacheSet [] 0 ("product:" ++ "x") [⟨"a", 3, "u", "", 0, 0⟩]) 5 "x"
        NetOutcome.fetchError
      = ([⟨"a", 3, "u", "", 0, 0⟩], cacheSet [] 0 ("product:" ++ "x") [⟨"a", 3, "u", "", 0, 0⟩]) :=
  (C9_cache_ttl (cacheSet [] 0 ("product:" ++ "x") [⟨"a", 3, "u", "", 0, 0⟩]) 0 5 "k" "x"
    [] [⟨"a", 3, "u", "", 0, 0⟩] NetOutcome.fetchError []).2.1 (by decide)

/-- C10: during the ADJUSTED-phase merge, every category key whose
adjusted resolution is absent — keys resolving to `null` and keys not
present in the adjusted mapping at all — keeps exactly its pre-merge
entry; the merge never deletes an existing resolved listing and never
replaces one with absent. -/
theorem C10_merge_frame (base : List (String × Listing))
    (adj : List (String × Option Listing)) (k : String) :
    ((∀ p, (k, p) ∈ adj → p = none) →
      lookupKey (mergeProducts base adj) k = lookupKey base k)
    ∧ ((lookupKey base k).isSome → (lookupKey (mergeProducts base adj) k).isSome) := by
  constructor
  · exact lookupKey_mergeProducts_of_absent base adj k
  · intro hs
    exact (lookupKey_mergeProducts_isSome base adj k).2 (Or.inl hs)

/-- Witness for C10: a merge whose adjusted batch resolved nothing for
"CPU" leaves the existing "CPU" entry untouched. -/
theorem C10_merge_frame_witness :
    lookupKey (mergeProducts [("CPU", (⟨"c", 7, "u", "", 0, 0⟩ : Listing))]
        [("CPU", none), ("GPU", none)]) "CPU"
      = lookupKey [("CPU", (⟨"c", 7, "u", "", 0, 0⟩ : Listing))] "CPU" :=
  (C10_merge_frame [("CPU", (⟨"c", 7, "u", "", 0, 0⟩ : Listing))]
    [("CPU", none), ("GPU", none)] "CPU").1 (by
      intro p hp
      simpa using hp)

/-- C1: for every completed initial resolution batch (a parsed spec that
passed key validation, with a positive budget), the request terminates
successfully without any adjustment round — returning the original
narration text and the resolved products mapping — if and only if the
missing-category list is empty and |total - budget| / budget ≤ 1/10; in
particular, for budget 500000 a total of 540000 is acceptable and a total
of 560000 is unacceptable. -/
theorem C1_accept_iff (budget : ℚ) (initial adjusted : GenOutput)
    (r1 r2 : String → ResolveOutcome) (comps : List (String × JVal))
    (_hb : 0 < budget) (h1 : initial.parsed = some comps) (h2 : validSpec comps = true) :
    (processRequest budget initial adjusted r1 r2
        = (ApiResponse.success initial.text (productsOf (initialBatch r1 comps)), 1)
      ↔ bundleAcceptable (missingOf (initialBatch r1 comps))
          (totalPriceOf (productsOf (initialBatch r1 comps))) budget = true)
    ∧ bundleAcceptable [] 540000 500000 = true
    ∧ bundleAcceptable [] 560000 500000 = false := by
  refine ⟨?_, ?_, ?_⟩
  · constructor
    · intro hres
      cases hacc0 : bundleAcceptable (missingOf (initialBatch r1 comps))
          (totalPriceOf (productsOf (initialBatch r1 comps))) budget with
      | true => rfl
      | false =>
          exfalso
          cases ha : adjusted.parsed with
          | none =>
              rw [processRequest_adjustedParseFail budget initial adjusted r1 r2 comps
                h1 h2 hacc0 ha] at hres
              simp at hres
          | some ac =>
              rw [processRequest_adjustedBranch budget initial adjusted r1 r2 comps ac
                h1 h2 hacc0 ha] at hres
              simp at hres
    · exact processRequest_acceptBranch budget initial adjusted r1 r2 comps h1 h2
  · rw [bundleAcceptable]
    norm_num
  · rw [bundleAcceptable]
    norm_num

/-- Witness for C1: a valid parsed spec with positive budget satisfies the
hypotheses, and the two concrete acceptability facts follow. -/
theorem C1_accept_iff_witness :
    bundleAcceptable [] 540000 500000 = true ∧ bundleAcceptable [] 560000 500000 = false :=
  ⟨(C1_accept_iff 500000 ⟨"t", some (requiredComponents.map (fun k => (k, JVal.str k)))⟩
      ⟨"a", none⟩ (fun _ => ResolveOutcome.ok none) (fun _ => ResolveOutcome.ok none)
      (requiredComponents.map (fun k => (k, JVal.str k)))
      (by norm_num) rfl (by decide)).2.1,
    (C1_accept_iff 500000 ⟨"t", some (requiredComponents.map (fun k => (k, JVal.str k)))⟩
      ⟨"a", none⟩ (fun _ => ResolveOutcome.ok none) (fun _ => ResolveOutcome.ok none)
      (requiredComponents.map (fun k => (k, JVal.str k)))
      (by norm_num) rfl (by decide)).2.2⟩

/-- C2: for every inbound request the generative-text provider is invoked
at most twice; when the initial bundle is acceptable exactly one call is
made; and when it is unacceptable and the adjusted response parses, the
request terminates with the merged bundle after exactly two calls,
unconditionally in the merged bundle's own acceptability — acceptability
is not re-checked after the merge. -/
theorem C2_at_most_two_calls (budget : ℚ) (initial adjusted : GenOutput)
    (r1 r2 : String → ResolveOutcome) :
    ((processRequest budget initial adjusted r1 r2).2 ≤ 2)
    ∧ (∀ comps, initial.parsed = some comps → validSpec comps = true →
        bundleAcceptable (missingOf (initialBatch r1 comps))
          (totalPriceOf (productsOf (initialBatch r1 comps))) budget = true →
        (processRequest budget initial adjusted r1 r2).2 = 1)
    ∧ (∀ comps ac, initial.parsed = some comps → validSpec comps = true →
        bundleAcceptable (missingOf (initialBatch r1 comps))
          (totalPriceOf (productsOf (initialBatch r1 comps))) budget = false →
        adjusted.parsed = some ac →
        processRequest budget initial adjusted r1 r2
          = (ApiResponse.success adjusted.text
              (mergeProducts (productsOf (initialBatch r1 comps))
                (adjustedBatch r2 ac)), 2)) := by
  refine ⟨?_, ?_, ?_⟩
  · cases h1 : initial.parsed with
    | none =>
        rw [processRequest_parseFail budget initial adjusted r1 r2 h1]
        omega
    | some comps =>
        cases h2 : validSpec comps with
        | false =>
            rw [processRequest_invalidSpec budget initial adjusted r1 r2 comps h1 h2]
            omega
        | true =>
            cases h3 : bundleAcceptable (missingOf (initialBatch r1 comps))
                (totalPriceOf (productsOf (initialBatch r1 comps))) budget with
            | true =>
                rw [processRequest_acceptBranch budget initial adjusted r1 r2 comps h1 h2 h3]
                omega
            | false =>
                cases h4 : adjusted.parsed with
                | none =>
                    rw [processRequest_adjustedParseFail budget initial adjusted r1 r2 comps
                      h1 h2 h3 h4]
                | some ac =>
                    rw [processRequest_adjustedBranch budget initial adjusted r1 r2 comps ac
                      h1 h2 h3 h4]
  · intro comps h1 h2 h3
    rw [processRequest_acceptBranch budget initial adjusted r1 r2 comps h1 h2 h3]
  · intro comps ac h1 h2 h3 h4
    exact processRequest_adjustedBranch budget initial adjusted r1 r2 comps ac h1 h2 h3 h4

/-- Witness for C2: a spec none of whose categories resolves is
unacceptable, so the adjusted phase runs and the request ends after the
merge with two provider calls. -/
theorem C2_at_most_two_calls_witness :
    processRequest 100 ⟨"i", some (requiredComponents.map (fun k => (k, JVal.str k)))⟩
        ⟨"a", some []⟩ (fun _ => ResolveOutcome.ok none) (fun _ => ResolveOutcome.ok none)
      = (ApiResponse.success "a"
          (mergeProducts (productsOf (initialBatch (fun _ => ResolveOutcome.ok none)
              (requiredComponents.map (fun k => (k, JVal.str k)))))
            (adjustedBatch (fun _ => ResolveOutcome.ok none) [])), 2) :=
  (C2_at_most_two_calls 100 ⟨"i", some (requiredComponents.map (fun k => (k, JVal.str k)))⟩
      ⟨"a", some []⟩ (fun _ => ResolveOutcome.ok none) (fun _ => ResolveOutcome.ok none)).2.2
    (requiredComponents.map (fun k => (k, JVal.str k))) [] rfl (by decide) (by decide) rfl

/-- C8 counterexample: the initial validation accepts a spec that does
NOT contain exactly the eight required keys — a ninth key "SSD" alongside
all eight required ones passes `validSpec`, and a request carrying such a
spec completes successfully rather than failing, refuting the claim that
a spec not containing exactly the eight required keys is a hard failure. -/
theorem C8_counterexample :
    validSpec (("SSD", JVal.str "ssd") :: requiredComponents.map (fun k => (k, JVal.str k)))
        = true
    ∧ "SSD" ∉ requiredComponents
    ∧ (processRequest 800000
        ⟨"init", some (("SSD", JVal.str "ssd")
          :: requiredComponents.map (fun k => (k, JVal.str k)))⟩
        ⟨"adj", none⟩
        (fun _ => ResolveOutcome.ok (some ⟨"item", 100000, "u", "", 0, 0⟩))
        (fun _ => ResolveOutcome.ok none)).1 ≠ ApiResponse.internalError := by
  refine ⟨by decide, by decide, ?_⟩
  have hm : missingOf (initialBatch
      (fun _ => ResolveOutcome.ok (some (⟨"item", 100000, "u", "", 0, 0⟩ : Listing)))
      (("SSD", JVal.str "ssd") :: requiredComponents.map (fun k => (k, JVal.str k)))) = [] := by
    decide
  have hp : productsOf (initialBatch
      (fun _ => ResolveOutcome.ok (some (⟨"item", 100000, "u", "", 0, 0⟩ : Listing)))
      (("SSD", JVal.str "ssd") :: requiredComponents.map (fun k => (k, JVal.str k))))
      = requiredComponents.map (fun k => (k, (⟨"item", 100000, "u", "", 0, 0⟩ : Listing))) := by
    decide
  have hacc : bundleAcceptable (missingOf (initialBatch
      (fun _ => ResolveOutcome.ok (some (⟨"item", 100000, "u", "", 0, 0⟩ : Listing)))
      (("SSD", JVal.str "ssd") :: requiredComponents.map (fun k => (k, JVal.str k)))))
      (totalPriceOf (productsOf (initialBatch
        (fun _ => ResolveOutcome.ok (some (⟨"item", 100000, "u", "", 0, 0⟩ : Listing)))
        (("SSD", JVal.str "ssd") :: requiredComponents.map (fun k => (k, JVal.str k))))))
      800000 = true := by
    rw [hm, hp, bundleAcceptable]
    norm_num [totalPriceOf, requiredComponents]
  rw [processRequest_acceptBranch 800000
    ⟨"init", some (("SSD", JVal.str "ssd") :: requiredComponents.map (fun k => (k, JVal.str k)))⟩
    ⟨"adj", none⟩
    (fun _ => ResolveOutcome.ok (some ⟨"item", 100000, "u", "", 0, 0⟩))
    (fun _ => ResolveOutcome.ok none)
    (("SSD", JVal.str "ssd") :: requiredComponents.map (fun k => (k, JVal.str k)))
    rfl (by decide) hacc]
  simp

/-- C8 (amended): a generation-level failure is always a hard failure
surfaced to the inbound caller as a generic internal-error response with
no retry of that generative call: malformed generative-text JSON in either
the INITIAL or ADJUSTED phase, and an INITIAL spec missing any of the
eight required category keys, each fail the whole request; the validation
requires exactly that every required key be present — keys beyond the
eight do not invalidate a spec. -/
theorem C8_generation_failures (budget : ℚ) (initial adjusted : GenOutput)
    (r1 r2 : String → ResolveOutcome) (comps : List (String × JVal)) :
    (initial.parsed = none →
      processRequest budget initial adjusted r1 r2 = (ApiResponse.internalError, 1))
    ∧ (initial.parsed = some comps → validSpec comps = false →
        processRequest budget initial adjusted r1 r2 = (ApiResponse.internalError, 1))
    ∧ (initial.parsed = some comps → validSpec comps = true →
        bundleAcceptable (missingOf (initialBatch r1 comps))
          (totalPriceOf (productsOf (initialBatch r1 comps))) budget = false →
        adjusted.parsed = none →
        processRequest budget initial adjusted r1 r2 = (ApiResponse.internalError, 2))
    ∧ (validSpec comps = true ↔ ∀ key ∈ requiredComponents, key ∈ comps.map Prod.fst) := by
  refine ⟨?_, ?_, ?_, ?_⟩
  · exact processRequest_parseFail budget initial adjusted r1 r2
  · exact processRequest_invalidSpec budget initial adjusted r1 r2 comps
  · exact processRequest_adjustedParseFail budget initial adjusted r1 r2 comps
  · rw [validSpec, List.all_eq_true]
    constructor
    · intro h key hkey
      have := h key hkey
      simpa using this
    · intro h key hkey
      simpa using h key hkey

/-- Witness for C8 (amended): a parse failure of the initial response and
a spec missing required keys are both surfaced as the internal error. -/
theorem C8_generation_failures_witness :
    processRequest 1 ⟨"i", none⟩ ⟨"a", none⟩ (fun _ => ResolveOutcome.ok none)
        (fun _ => ResolveOutcome.ok none) = (ApiResponse.internalError, 1)
    ∧ processRequest 1 ⟨"i", some [("CPU", JVal.str "c")]⟩ ⟨"a", none⟩
        (fun _ => ResolveOutcome.ok none) (fun _ => ResolveOutcome.ok none)
      = (ApiResponse.internalError, 1) :=
  ⟨(C8_generation_failures 1 ⟨"i", none⟩ ⟨"a", none⟩ (fun _ => ResolveOutcome.ok none)
      (fun _ => ResolveOutcome.ok none) []).1 rfl,
    (C8_generation_failures 1 ⟨"i", some [("CPU", JVal.str "c")]⟩ ⟨"a", none⟩
      (fun _ => ResolveOutcome.ok none) (fun _ => ResolveOutcome.ok none)
      [("CPU", JVal.str "c")]).2.1 rfl (by decide)⟩

end PCBuild
